import Mathlib

/-!
Verification of the hot-news scoring engine: a shallow embedding of
`src/scoring/embeddings.py` and `src/scoring/hot_score.py`.

Python floats are modelled as real numbers, `datetime` instants as real
epoch seconds together with a timezone-awareness flag, Python `None` as
`Option`, and the single exception source (`ValueError` on a vector
dimension mismatch) as `Except String`.  The in-place mutation of
recent-window items performed by `calculate_trend_frequency`
(`recent_item.published_at = ...replace(tzinfo=utc)`) is modelled by
returning the updated recent-news list alongside each result.
-/

open scoped Classical

/-- A `datetime` instant: epoch seconds of the wall-clock reading taken as
UTC, plus whether the value carries timezone info (`tzinfo is not None`). -/
structure Datetime where
  seconds : ℝ
  aware : Bool

/-- Model of `published_at.replace(tzinfo=timezone.utc)`: the wall clock is
unchanged and is now interpreted as UTC. -/
def Datetime.replaceUTC (d : Datetime) : Datetime := ⟨d.seconds, true⟩

/-- The `NewsItem` dataclass of `hot_score.py`. -/
structure NewsItem where
  title : String
  summary : String
  url : String
  published_at : Datetime
  source : String
  shares : ℤ := 0
  retweets : ℤ := 0
  upvotes : ℤ := 0
  sentiment : ℝ := 0
  controversy : ℝ := 0
  embedding : Option (List ℝ) := none

/-- Python truthiness of the `embedding` field: `None` and the empty list
are falsy, a nonempty list is truthy (used by `not item.embedding`). -/
def embPresent : Option (List ℝ) → Bool
  | none => false
  | some l => !l.isEmpty

/-- Local binding `dot_product` of `cosine_similarity`:
`sum(a * b for a, b in zip(vec1, vec2))`. -/
def dot_product (vec1 vec2 : List ℝ) : ℝ :=
  (List.zipWith (fun a b => a * b) vec1 vec2).sum

/-- Sum of squares of the entries (argument of `math.sqrt` in the `norm1`
and `norm2` bindings of `cosine_similarity`). -/
def sumSq (vec : List ℝ) : ℝ :=
  (vec.map (fun a => a * a)).sum

/-- Local binding `norm1` / `norm2` of `cosine_similarity`:
`math.sqrt(sum(a * a for a in vec))`. -/
noncomputable def vecNorm (vec : List ℝ) : ℝ :=
  Real.sqrt (sumSq vec)

/-- The function `cosine_similarity` of `embeddings.py`.  Raises
`ValueError` when the lengths differ, returns `0.0` when either norm is
zero, otherwise the normalized dot product. -/
noncomputable def cosine_similarity (vec1 vec2 : List ℝ) : Except String ℝ :=
  if vec1.length ≠ vec2.length then .error "Vectors must have the same length"
  else if vecNorm vec1 = 0 ∨ vecNorm vec2 = 0 then .ok 0
  else .ok (dot_product vec1 vec2 / (vecNorm vec1 * vecNorm vec2))

/-- The value `cosine_similarity` computes once the length guard has
passed (total companion function, used to state specifications). -/
noncomputable def cosSimVal (vec1 vec2 : List ℝ) : ℝ :=
  if vecNorm vec1 = 0 ∨ vecNorm vec2 = 0 then 0
  else dot_product vec1 vec2 / (vecNorm vec1 * vecNorm vec2)

/-- The class attribute `HotScoreCalculator.WEIGHTS`, in dict insertion
order. -/
noncomputable def WEIGHTS : List (String × ℝ) :=
  [("freshness", 0.25), ("trend_frequency", 0.25), ("relevance", 0.30),
   ("sentiment", 0.10), ("uniqueness", 0.10)]

/-- Dict access `WEIGHTS[k]` (every key used by `calculate` is present). -/
noncomputable def getWeight (k : String) : ℝ :=
  (((WEIGHTS.find? (fun p => p.1 == k)).map Prod.snd).getD 0)

/-- The class attribute `HotScoreCalculator.VIRALITY_NORMS`. -/
noncomputable def VIRALITY_NORMS : List (String × ℝ) :=
  [("twitter", 1000), ("reddit", 500), ("newsapi", 100), ("rss", 50)]

/-- Dict access `VIRALITY_NORMS.get(source, 100)`. -/
noncomputable def viralityNormOf (s : String) : ℝ :=
  (((VIRALITY_NORMS.find? (fun p => p.1 == s)).map Prod.snd).getD 100)

/-- State of a `HotScoreCalculator` instance. -/
structure HotScoreCalculator where
  topic_embeddings : List (List ℝ)
  published_embeddings : List (List ℝ)
  recent_news : List NewsItem

/-- The constructor `HotScoreCalculator.__init__`: `topic_embeddings or []`
and `recent_news or []`, with an empty published history. -/
def HotScoreCalculator.init
    (topic_embeddings : Option (List (List ℝ)) := none)
    (recent_news : Option (List NewsItem) := none) : HotScoreCalculator :=
  { topic_embeddings := topic_embeddings.getD []
    published_embeddings := []
    recent_news := recent_news.getD [] }

/-- `calculate_freshness`: exponential decay `exp(-hours / 12)` against the
evaluation instant `now`; a naive timestamp first gets UTC attached. -/
noncomputable def HotScoreCalculator.calculate_freshness
    (now : ℝ) (published_at : Datetime) : ℝ :=
  Real.exp (-(((now - (if published_at.aware then published_at
      else published_at.replaceUTC).seconds) / 3600) / 12))

/-- `calculate_virality`: `min(1.0, total_engagement / norm)` with the
per-source norm (default 100). -/
noncomputable def HotScoreCalculator.calculate_virality (item : NewsItem) : ℝ :=
  min 1 (((item.shares + item.retweets + item.upvotes : ℤ) : ℝ) /
    viralityNormOf item.source)

/-- Mutation performed on each iterated recent item by the loop of
`calculate_trend_frequency`: attach UTC to a naive `published_at`. -/
def NewsItem.normalizePub (r : NewsItem) : NewsItem :=
  { r with published_at :=
      if r.published_at.aware then r.published_at else r.published_at.replaceUTC }

/-- The loop of `calculate_trend_frequency` over `self.recent_news`:
returns the count of similar recent items (or the propagated dimension
error) together with the recent-news list as left after the in-place
timezone normalizations. -/
noncomputable def trendLoop (emb : List ℝ) (now threshold : ℝ) :
    List NewsItem → Except String ℕ × List NewsItem
  | [] => (.ok 0, [])
  | r :: rs =>
    if (now - r.normalizePub.published_at.seconds) / 3600 > 6 then
      match trendLoop emb now threshold rs with
      | (res, rs') => (res, r.normalizePub :: rs')
    else if embPresent r.normalizePub.embedding then
      match cosine_similarity emb (r.normalizePub.embedding.getD []) with
      | .error e => (.error e, r.normalizePub :: rs)
      | .ok sim =>
        match trendLoop emb now threshold rs with
        | (res, rs') =>
          (res.map (fun c => if sim ≥ threshold then c + 1 else c),
           r.normalizePub :: rs')
    else
      match trendLoop emb now threshold rs with
      | (res, rs') => (res, r.normalizePub :: rs')

/-- `calculate_trend_frequency`: virality fallback when the item has no
(truthy) embedding or the recent window is empty, otherwise
`min(1.0, similar_count / 10.0)`; the second component is the state of
`self.recent_news` after the call. -/
noncomputable def HotScoreCalculator.calculate_trend_frequency
    (st : HotScoreCalculator) (now : ℝ) (item : NewsItem)
    (similarity_threshold : ℝ := 0.7) : Except String ℝ × List NewsItem :=
  if !embPresent item.embedding || st.recent_news.isEmpty then
    (.ok (HotScoreCalculator.calculate_virality item), st.recent_news)
  else
    match trendLoop (item.embedding.getD []) now similarity_threshold
        st.recent_news with
    | (.error e, rs) => (.error e, rs)
    | (.ok similar_count, rs) => (.ok (min 1 ((similar_count : ℝ) / 10)), rs)

/-- The shared loop shape of `calculate_relevance` and
`calculate_uniqueness`: fold `max_sim = max(max_sim, sim)` over a
collection of reference vectors, starting from `max_sim = 0.0`. -/
noncomputable def maxSimLoop (emb : List ℝ) :
    List (List ℝ) → ℝ → Except String ℝ
  | [], max_sim => .ok max_sim
  | t :: ts, max_sim =>
    match cosine_similarity emb t with
    | .error e => .error e
    | .ok sim => maxSimLoop emb ts (max max_sim sim)

/-- `calculate_relevance`: `0.5` without a (truthy) embedding or topic
vectors, otherwise the `max_sim` fold over `self.topic_embeddings`. -/
noncomputable def HotScoreCalculator.calculate_relevance
    (st : HotScoreCalculator) (item : NewsItem) : Except String ℝ :=
  if !embPresent item.embedding || st.topic_embeddings.isEmpty then .ok 0.5
  else maxSimLoop (item.embedding.getD []) st.topic_embeddings 0

/-- `calculate_sentiment_score`: `(abs(sentiment) + controversy) / 2`. -/
noncomputable def HotScoreCalculator.calculate_sentiment_score
    (item : NewsItem) : ℝ :=
  (|item.sentiment| + item.controversy) / 2

/-- `calculate_uniqueness`: `1.0` without a (truthy) embedding or published
history, otherwise `1 - max_sim` with the same fold over
`self.published_embeddings`. -/
noncomputable def HotScoreCalculator.calculate_uniqueness
    (st : HotScoreCalculator) (item : NewsItem) : Except String ℝ :=
  if !embPresent item.embedding || st.published_embeddings.isEmpty then .ok 1
  else
    match maxSimLoop (item.embedding.getD []) st.published_embeddings 0 with
    | .error e => .error e
    | .ok max_sim => .ok (1 - max_sim)

/-- `calculate`: the weighted fusion of the five signals, in the order the
`scores` dict is built; the second component is the state of
`self.recent_news` after the call (only `calculate_trend_frequency`
mutates it). -/
noncomputable def HotScoreCalculator.calculate
    (st : HotScoreCalculator) (now : ℝ) (item : NewsItem) :
    Except String ℝ × List NewsItem :=
  match st.calculate_trend_frequency now item with
  | (.error e, rs) => (.error e, rs)
  | (.ok trend, rs) =>
    match st.calculate_relevance item with
    | .error e => (.error e, rs)
    | .ok relevance =>
      match st.calculate_uniqueness item with
      | .error e => (.error e, rs)
      | .ok uniqueness =>
        (.ok (HotScoreCalculator.calculate_freshness now item.published_at *
                getWeight "freshness" +
              trend * getWeight "trend_frequency" +
              relevance * getWeight "relevance" +
              HotScoreCalculator.calculate_sentiment_score item *
                getWeight "sentiment" +
              uniqueness * getWeight "uniqueness"), rs)

/-- The list comprehension of `rank_news`:
`[(item, self.calculate(item)) for item in items]`, threading the
recent-news state mutated by each `calculate` call and aborting on the
first raised error. -/
noncomputable def scoreBatch (st : HotScoreCalculator) (now : ℝ) :
    List NewsItem → Except String (List (NewsItem × ℝ)) × List NewsItem
  | [] => (.ok [], st.recent_news)
  | item :: rest =>
    match st.calculate now item with
    | (.error e, rs) => (.error e, rs)
    | (.ok s, rs) =>
      match scoreBatch { st with recent_news := rs } now rest with
      | (res, rs') => (res.map (fun l => (item, s) :: l), rs')

/-- `rank_news`: score every item, `scored.sort(key=lambda x: x[1],
reverse=True)` (a stable descending sort by score), return the items of
the first `top_n` scored pairs. -/
noncomputable def HotScoreCalculator.rank_news
    (st : HotScoreCalculator) (now : ℝ) (items : List NewsItem)
    (top_n : ℕ := 4) : Except String (List NewsItem) × List NewsItem :=
  match scoreBatch st now items with
  | (.error e, rs) => (.error e, rs)
  | (.ok scored, rs) =>
    (.ok (((scored.insertionSort (fun a b => b.2 ≤ a.2)).take top_n).map
      Prod.fst), rs)

/-- `add_published`: append an embedding to the published history. -/
def HotScoreCalculator.add_published
    (st : HotScoreCalculator) (embedding : List ℝ) : HotScoreCalculator :=
  { st with published_embeddings := st.published_embeddings ++ [embedding] }

/-! ### Basic lemmas about the similarity utility -/

theorem sumSq_nonneg (v : List ℝ) : 0 ≤ sumSq v := by
  refine List.sum_nonneg ?_
  intro x hx
  rcases List.mem_map.1 hx with ⟨a, _, rfl⟩
  exact mul_self_nonneg a

theorem vecNorm_nonneg (v : List ℝ) : 0 ≤ vecNorm v := Real.sqrt_nonneg _

theorem vecNorm_eq_zero_iff (v : List ℝ) : vecNorm v = 0 ↔ sumSq v = 0 := by
  unfold vecNorm
  exact Real.sqrt_eq_zero (sumSq_nonneg v)

theorem sumSq_pos_of_ne_zero {v : List ℝ} (h : ∃ x ∈ v, x ≠ 0) :
    0 < sumSq v := by
  induction v with
  | nil => rcases h with ⟨x, hx, _⟩; cases hx
  | cons a rest ih =>
    have hs : sumSq (a :: rest) = a * a + sumSq rest := by
      simp [sumSq]
    rcases h with ⟨x, hx, hxne⟩
    rcases List.mem_cons.1 hx with rfl | hmem
    · have : 0 < x * x := mul_self_pos.mpr hxne
      nlinarith [sumSq_nonneg rest]
    · have : 0 < sumSq rest := ih ⟨x, hmem, hxne⟩
      nlinarith [mul_self_nonneg a]

theorem cosine_similarity_of_length_eq {vec1 vec2 : List ℝ}
    (h : vec1.length = vec2.length) :
    cosine_similarity vec1 vec2 = .ok (cosSimVal vec1 vec2) := by
  unfold cosine_similarity cosSimVal
  rw [if_neg (by simp [h])]
  by_cases h0 : vecNorm vec1 = 0 ∨ vecNorm vec2 = 0
  · rw [if_pos h0, if_pos h0]
  · rw [if_neg h0, if_neg h0]

/-! ### Claims C5, C10, C4, C6 -/

/-- C5: `cosine_similarity` fails with a dimension-mismatch error if and
only if the two input vectors have different lengths; for equal-length
vectors where either vector has zero norm it returns exactly 0.0 and never
raises. -/
theorem C5_cosine_similarity_error_iff_and_zero_norm (vec1 vec2 : List ℝ) :
    ((∃ e, cosine_similarity vec1 vec2 = .error e) ↔
      vec1.length ≠ vec2.length) ∧
    (vec1.length = vec2.length → vecNorm vec1 = 0 ∨ vecNorm vec2 = 0 →
      cosine_similarity vec1 vec2 = .ok 0) := by
  constructor
  · unfold cosine_similarity
    by_cases hl : vec1.length ≠ vec2.length
    · rw [if_pos hl]
      exact ⟨fun _ => hl, fun _ => ⟨_, rfl⟩⟩
    · rw [if_neg hl]
      constructor
      · rintro ⟨e, he⟩
        by_cases h0 : vecNorm vec1 = 0 ∨ vecNorm vec2 = 0
        · rw [if_pos h0] at he; cases he
        · rw [if_neg h0] at he; cases he
      · intro h; exact absurd h hl
  · intro hlen h0
    unfold cosine_similarity
    rw [if_neg (by simp [hlen]), if_pos h0]

/-- C5 witness: a concrete dimension mismatch raises, and a concrete
zero-norm pair of equal-length vectors returns exactly 0. -/
theorem C5_witness :
    (∃ e, cosine_similarity [(1 : ℝ)] [1, 2] = .error e) ∧
    cosine_similarity [(0 : ℝ)] [5] = .ok 0 :=
  ⟨(C5_cosine_similarity_error_iff_and_zero_norm [(1 : ℝ)] [1, 2]).1.mpr
      (by simp),
   (C5_cosine_similarity_error_iff_and_zero_norm [(0 : ℝ)] [5]).2 (by simp)
      (Or.inl (by rw [vecNorm_eq_zero_iff]; simp [sumSq]))⟩

/-- C10: an item whose embedding is the empty vector is treated exactly
like an item with an absent embedding: relevance 0.5, uniqueness 1.0, and
trend frequency falls back to virality, regardless of the topic set,
recent window, or published history. -/
theorem C10_empty_embedding_like_absent (st : HotScoreCalculator)
    (now thr : ℝ) (item : NewsItem) (h : item.embedding = some []) :
    st.calculate_relevance item = .ok 0.5 ∧
    st.calculate_uniqueness item = .ok 1 ∧
    st.calculate_trend_frequency now item thr =
      (.ok (HotScoreCalculator.calculate_virality item), st.recent_news) := by
  have hb : embPresent item.embedding = false := by rw [h]; rfl
  refine ⟨?_, ?_, ?_⟩
  · unfold HotScoreCalculator.calculate_relevance
    rw [if_pos (by rw [hb]; rfl)]
  · unfold HotScoreCalculator.calculate_uniqueness
    rw [if_pos (by rw [hb]; rfl)]
  · unfold HotScoreCalculator.calculate_trend_frequency
    rw [if_pos (by rw [hb]; rfl)]

/-- C10 witness: at a concrete state with nonempty topics, history and
recent window, a concrete item with the empty embedding gets all three
fallbacks. -/
theorem C10_witness :
    (HotScoreCalculator.mk [[1]] [[1]]
        [⟨"r", "s", "u", ⟨0, true⟩, "rss", 0, 0, 0, 0, 0, some [1]⟩]).calculate_relevance
        ⟨"t", "s", "u", ⟨0, true⟩, "rss", 0, 0, 0, 0, 0, some []⟩ = .ok 0.5 ∧
    (HotScoreCalculator.mk [[1]] [[1]]
        [⟨"r", "s", "u", ⟨0, true⟩, "rss", 0, 0, 0, 0, 0, some [1]⟩]).calculate_uniqueness
        ⟨"t", "s", "u", ⟨0, true⟩, "rss", 0, 0, 0, 0, 0, some []⟩ = .ok 1 ∧
    (HotScoreCalculator.mk [[1]] [[1]]
        [⟨"r", "s", "u", ⟨0, true⟩, "rss", 0, 0, 0, 0, 0, some [1]⟩]).calculate_trend_frequency
        0 ⟨"t", "s", "u", ⟨0, true⟩, "rss", 0, 0, 0, 0, 0, some []⟩ 0.7 =
      (.ok (HotScoreCalculator.calculate_virality
        ⟨"t", "s", "u", ⟨0, true⟩, "rss", 0, 0, 0, 0, 0, some []⟩),
       [⟨"r", "s", "u", ⟨0, true⟩, "rss", 0, 0, 0, 0, 0, some [1]⟩]) :=
  C10_empty_embedding_like_absent _ 0 0.7 _ rfl

/-- C4 (amended): the five fusion weights are 0.25, 0.25, 0.30, 0.10, 0.10
and sum to 1.0; they are a fixed class-level constant, and engine
construction is a plain record build that accepts every input — no weight
validation exists at configuration time. -/
theorem C4_weights_sum_one_no_validation :
    getWeight "freshness" = 0.25 ∧ getWeight "trend_frequency" = 0.25 ∧
    getWeight "relevance" = 0.30 ∧ getWeight "sentiment" = 0.10 ∧
    getWeight "uniqueness" = 0.10 ∧ (WEIGHTS.map Prod.snd).sum = 1 ∧
    ∀ t r, HotScoreCalculator.init t r =
      { topic_embeddings := t.getD []
        published_embeddings := []
        recent_news := r.getD [] } := by
  refine ⟨?_, ?_, ?_, ?_, ?_, ?_, fun t r => rfl⟩
  all_goals simp +decide [getWeight, WEIGHTS, List.find?]
  all_goals norm_num

/-- C4 counterexample: construction never performs a validation failure —
`__init__` returns a plain record for arbitrary concrete arguments, with
no check of any kind (its result type has no error channel at all),
whereas the claim asserts a malformed weight configuration is rejected at
engine construction time. -/
theorem C4_counterexample_init_never_fails :
    HotScoreCalculator.init (some [[2], [3]]) (some []) =
      { topic_embeddings := [[2], [3]]
        published_embeddings := []
        recent_news := [] } := rfl

/-- C6: `calculate_freshness` equals `exp(-hours/12)` against the
evaluation instant, treating naive timestamps as UTC; it equals 1.0 at
zero elapsed time, is strictly decreasing in elapsed time, and a
future-dated item yields a score greater than 1 with no clamping. -/
theorem C6_freshness_decay (now : ℝ) (p q : Datetime) :
    HotScoreCalculator.calculate_freshness now p =
      Real.exp (-(((now - p.seconds) / 3600) / 12)) ∧
    (p.seconds = now → HotScoreCalculator.calculate_freshness now p = 1) ∧
    (q.seconds < p.seconds →
      HotScoreCalculator.calculate_freshness now q <
        HotScoreCalculator.calculate_freshness now p) ∧
    (now < p.seconds →
      1 < HotScoreCalculator.calculate_freshness now p) := by
  have hf : ∀ d : Datetime, HotScoreCalculator.calculate_freshness now d =
      Real.exp (-(((now - d.seconds) / 3600) / 12)) := by
    rintro ⟨s, a⟩
    cases a <;>
      simp [HotScoreCalculator.calculate_freshness, Datetime.replaceUTC]
  refine ⟨hf p, ?_, ?_, ?_⟩
  · intro h
    rw [hf p, h]
    simp
  · intro h
    rw [hf p, hf q]
    apply Real.exp_lt_exp.mpr
    linarith
  · intro h
    rw [hf p, ← Real.exp_zero]
    apply Real.exp_lt_exp.mpr
    linarith

/-- C6 witness: concrete values — freshness 1.0 at zero elapsed time, a
strictly smaller value 12 hours (43200 seconds) earlier for a naive
timestamp, and a value above 1 for an item dated one hour in the
future. -/
theorem C6_witness :
    HotScoreCalculator.calculate_freshness 0 ⟨0, true⟩ = 1 ∧
    HotScoreCalculator.calculate_freshness 0 ⟨-43200, false⟩ <
      HotScoreCalculator.calculate_freshness 0 ⟨0, true⟩ ∧
    1 < HotScoreCalculator.calculate_freshness 0 ⟨3600, true⟩ :=
  ⟨(C6_freshness_decay 0 ⟨0, true⟩ ⟨0, true⟩).2.1 rfl,
   (C6_freshness_decay 0 ⟨0, true⟩ ⟨-43200, false⟩).2.2.1 (by norm_num),
   (C6_freshness_decay 0 ⟨3600, true⟩ ⟨0, true⟩).2.2.2 (by norm_num)⟩

/-! ### Fold-max helper lemmas for the `max_sim` loops -/

theorem foldMax_init_le {α : Type _} (f : α → ℝ) :
    ∀ (l : List α) (m : ℝ), m ≤ l.foldl (fun a x => max a (f x)) m := by
  intro l
  induction l with
  | nil => intro m; simp
  | cons a l ih =>
    intro m
    simpa using le_trans (le_max_left m (f a)) (ih (max m (f a)))

theorem foldMax_mem_le {α : Type _} (f : α → ℝ) :
    ∀ (l : List α) (m : ℝ) (x : α), x ∈ l →
      f x ≤ l.foldl (fun a x => max a (f x)) m := by
  intro l
  induction l with
  | nil => intro m x hx; cases hx
  | cons a l ih =>
    intro m x hx
    rcases List.mem_cons.1 hx with rfl | hmem
    · simpa using le_trans (le_max_right m (f x)) (foldMax_init_le f l _)
    · simpa using ih (max m (f a)) x hmem

theorem foldMax_eq_init_or_mem {α : Type _} (f : α → ℝ) :
    ∀ (l : List α) (m : ℝ), l.foldl (fun a x => max a (f x)) m = m ∨
      ∃ x ∈ l, l.foldl (fun a x => max a (f x)) m = f x := by
  intro l
  induction l with
  | nil => intro m; left; rfl
  | cons a l ih =>
    intro m
    rcases ih (max m (f a)) with h | ⟨x, hx, h⟩
    · rcases max_choice m (f a) with hm | hm
      · left; simpa [hm] using h
      · right; exact ⟨a, List.mem_cons_self a l, by simpa [hm] using h⟩
    · right; exact ⟨x, List.mem_cons_of_mem a hx, by simpa using h⟩

theorem foldMax_le {α : Type _} (f : α → ℝ) :
    ∀ (l : List α) (m b : ℝ), m ≤ b → (∀ x ∈ l, f x ≤ b) →
      l.foldl (fun a x => max a (f x)) m ≤ b := by
  intro l
  induction l with
  | nil => intro m b hm _; simpa using hm
  | cons a l ih =>
    intro m b hm h
    simpa using ih (max m (f a)) b
      (max_le hm (h a (List.mem_cons_self a l)))
      (fun x hx => h x (List.mem_cons_of_mem a hx))

/-- The `max_sim` loop evaluates, when every reference vector matches the
query dimension, to a fold of `max` over the similarity values. -/
theorem maxSimLoop_ok {emb : List ℝ} :
    ∀ (ts : List (List ℝ)), (∀ t ∈ ts, t.length = emb.length) → ∀ m : ℝ,
      maxSimLoop emb ts m =
        .ok (ts.foldl (fun acc t => max acc (cosSimVal emb t)) m) := by
  intro ts
  induction ts with
  | nil => intro _ m; rfl
  | cons t ts ih =>
    intro h m
    have hc := cosine_similarity_of_length_eq
      (show emb.length = t.length from (h t (List.mem_cons_self t ts)).symm)
    simp only [maxSimLoop, hc, List.foldl_cons]
    exact ih (fun t' ht' => h t' (List.mem_cons_of_mem t ht')) (max m (cosSimVal emb t))

/-! ### Cauchy-Schwarz for the list-level dot product -/

theorem dot_product_cons (a b : ℝ) (v w : List ℝ) :
    dot_product (a :: v) (b :: w) = a * b + dot_product v w := by
  simp [dot_product]

theorem sumSq_cons (a : ℝ) (v : List ℝ) :
    sumSq (a :: v) = a * a + sumSq v := by
  simp [sumSq]

theorem dot_product_sq_le (v : List ℝ) :
    ∀ w : List ℝ, (dot_product v w) ^ 2 ≤ sumSq v * sumSq w := by
  induction v with
  | nil =>
    intro w
    have : dot_product [] w = 0 := by simp [dot_product]
    rw [this]
    have := sumSq_nonneg w
    have h0 : sumSq ([] : List ℝ) = 0 := by simp [sumSq]
    nlinarith
  | cons a v ih =>
    intro w
    cases w with
    | nil =>
      have : dot_product (a :: v) [] = 0 := by simp [dot_product]
      rw [this]
      nlinarith [sumSq_nonneg (a :: v), sumSq_nonneg ([] : List ℝ)]
    | cons b w =>
      rw [dot_product_cons, sumSq_cons, sumSq_cons]
      have hd := ih w
      have hs1 := sumSq_nonneg v
      have hs2 := sumSq_nonneg w
      rcases eq_or_lt_of_le hs1 with hz | hpos
      · have hdz : dot_product v w = 0 := by
          have h2 : (dot_product v w) ^ 2 ≤ 0 := by
            calc (dot_product v w) ^ 2 ≤ sumSq v * sumSq w := hd
            _ = 0 := by rw [← hz]; ring
          exact pow_eq_zero_iff (n := 2) (by norm_num) |>.mp
            (le_antisymm h2 (sq_nonneg _))
        rw [hdz, ← hz]
        nlinarith [mul_nonneg (mul_self_nonneg a) hs2]
      · nlinarith [sq_nonneg (a * dot_product v w - b * sumSq v),
          mul_nonneg hs1 (sub_nonneg.2 hd),
          mul_nonneg (sq_nonneg a) (sub_nonneg.2 hd)]

theorem abs_cosSimVal_le_one (v w : List ℝ) : |cosSimVal v w| ≤ 1 := by
  unfold cosSimVal
  by_cases h0 : vecNorm v = 0 ∨ vecNorm w = 0
  · rw [if_pos h0]; norm_num
  · rw [if_neg h0]
    push_neg at h0
    have hv : 0 < vecNorm v := lt_of_le_of_ne (vecNorm_nonneg v) (Ne.symm h0.1)
    have hw : 0 < vecNorm w := lt_of_le_of_ne (vecNorm_nonneg w) (Ne.symm h0.2)
    rw [abs_div]
    rw [abs_of_pos (mul_pos hv hw)]
    rw [div_le_one (mul_pos hv hw)]
    have hsq : (dot_product v w) ^ 2 ≤ (vecNorm v * vecNorm w) ^ 2 := by
      have he : (vecNorm v * vecNorm w) ^ 2 = sumSq v * sumSq w := by
        unfold vecNorm
        rw [mul_pow, Real.sq_sqrt (sumSq_nonneg v), Real.sq_sqrt (sumSq_nonneg w)]
      rw [he]
      exact dot_product_sq_le v w
    calc |dot_product v w| = Real.sqrt ((dot_product v w) ^ 2) :=
          (Real.sqrt_sq_eq_abs _).symm
    _ ≤ Real.sqrt ((vecNorm v * vecNorm w) ^ 2) := Real.sqrt_le_sqrt hsq
    _ = |vecNorm v * vecNorm w| := Real.sqrt_sq_eq_abs _
    _ = vecNorm v * vecNorm w := abs_of_pos (mul_pos hv hw)

theorem cosSimVal_le_one (v w : List ℝ) : cosSimVal v w ≤ 1 :=
  (abs_le.1 (abs_cosSimVal_le_one v w)).2

theorem neg_one_le_cosSimVal (v w : List ℝ) : -1 ≤ cosSimVal v w :=
  (abs_le.1 (abs_cosSimVal_le_one v w)).1

theorem dot_product_self (v : List ℝ) : dot_product v v = sumSq v := by
  induction v with
  | nil => simp [dot_product, sumSq]
  | cons a v ih => rw [dot_product_cons, sumSq_cons, ih]

theorem vecNorm_pos_of_ne_zero {v : List ℝ} (h : ∃ x ∈ v, x ≠ 0) :
    0 < vecNorm v :=
  Real.sqrt_pos.2 (sumSq_pos_of_ne_zero h)

theorem cosSimVal_self {v : List ℝ} (h : ∃ x ∈ v, x ≠ 0) :
    cosSimVal v v = 1 := by
  have hpos := vecNorm_pos_of_ne_zero h
  unfold cosSimVal
  rw [if_neg (by push_neg; exact ⟨ne_of_gt hpos, ne_of_gt hpos⟩)]
  rw [dot_product_self]
  unfold vecNorm
  rw [Real.mul_self_sqrt (sumSq_nonneg v)]
  exact div_self (ne_of_gt (sumSq_pos_of_ne_zero h))

theorem dot_product_map_neg (v : List ℝ) :
    dot_product v (v.map (fun a => -a)) = -sumSq v := by
  induction v with
  | nil => simp [dot_product, sumSq]
  | cons a v ih =>
    simp only [List.map_cons]
    rw [dot_product_cons, sumSq_cons, ih]
    ring

theorem sumSq_map_neg (v : List ℝ) : sumSq (v.map (fun a => -a)) = sumSq v := by
  induction v with
  | nil => simp [sumSq]
  | cons a v ih =>
    simp only [List.map_cons]
    rw [sumSq_cons, sumSq_cons, ih]
    ring

theorem cosSimVal_map_neg {v : List ℝ} (h : ∃ x ∈ v, x ≠ 0) :
    cosSimVal v (v.map (fun a => -a)) = -1 := by
  have hpos := vecNorm_pos_of_ne_zero h
  have hnn : vecNorm (v.map (fun a => -a)) = vecNorm v := by
    unfold vecNorm; rw [sumSq_map_neg]
  unfold cosSimVal
  rw [hnn, if_neg (by push_neg; exact ⟨ne_of_gt hpos, ne_of_gt hpos⟩)]
  rw [dot_product_map_neg]
  unfold vecNorm
  rw [Real.mul_self_sqrt (sumSq_nonneg v)]
  rw [neg_div]
  rw [div_self (ne_of_gt (sumSq_pos_of_ne_zero h))]

/-! ### Claim C8 -/

/-- C8: for every pair of equal-length nonzero vectors the cosine
similarity lies in [-1, 1]; for every nonzero vector v the similarity of v
with itself is exactly 1.0 and with its negation exactly -1.0. -/
theorem C8_cosine_range_self_and_neg :
    (∀ v w : List ℝ, v.length = w.length → (∃ x ∈ v, x ≠ 0) →
      (∃ y ∈ w, y ≠ 0) → ∃ r, cosine_similarity v w = .ok r ∧
        -1 ≤ r ∧ r ≤ 1) ∧
    (∀ v : List ℝ, (∃ x ∈ v, x ≠ 0) → cosine_similarity v v = .ok 1) ∧
    (∀ v : List ℝ, (∃ x ∈ v, x ≠ 0) →
      cosine_similarity v (v.map (fun a => -a)) = .ok (-1)) := by
  refine ⟨?_, ?_, ?_⟩
  · intro v w hlen _ _
    exact ⟨cosSimVal v w, cosine_similarity_of_length_eq hlen,
      neg_one_le_cosSimVal v w, cosSimVal_le_one v w⟩
  · intro v h
    rw [cosine_similarity_of_length_eq rfl, cosSimVal_self h]
  · intro v h
    rw [cosine_similarity_of_length_eq (by simp), cosSimVal_map_neg h]

/-- C8 witness: concrete instances for the three parts. -/
theorem C8_witness :
    (∃ r, cosine_similarity [(1 : ℝ), 2] [3, 4] = .ok r ∧ -1 ≤ r ∧ r ≤ 1) ∧
    cosine_similarity [(5 : ℝ)] [5] = .ok 1 ∧
    cosine_similarity [(2 : ℝ), 0] (([(2 : ℝ), 0]).map (fun a => -a)) =
      .ok (-1) :=
  ⟨C8_cosine_range_self_and_neg.1 [1, 2] [3, 4] rfl
      ⟨1, by norm_num, one_ne_zero⟩ ⟨3, by norm_num, by norm_num⟩,
   C8_cosine_range_self_and_neg.2.1 [5] ⟨5, by norm_num, by norm_num⟩,
   C8_cosine_range_self_and_neg.2.2 [2, 0] ⟨2, by norm_num, by norm_num⟩⟩

/-! ### Claims C3 and C7 -/

theorem cosSimVal_one_negOne : cosSimVal [(1 : ℝ)] [-1] = -1 := by
  have h1 : sumSq [(1 : ℝ)] = 1 := by norm_num [sumSq]
  have h2 : sumSq [(-1 : ℝ)] = 1 := by norm_num [sumSq]
  have hn1 : vecNorm [(1 : ℝ)] = 1 := by rw [vecNorm, h1, Real.sqrt_one]
  have hn2 : vecNorm [(-1 : ℝ)] = 1 := by rw [vecNorm, h2, Real.sqrt_one]
  have hdot : dot_product [(1 : ℝ)] [-1] = -1 := by norm_num [dot_product]
  rw [cosSimVal, hn1, hn2, if_neg (by norm_num), hdot]
  norm_num

/-- C3 (amended): relevance is 0.5 when the item has no embedding or no
topic vectors are configured; otherwise it returns the maximum cosine
similarity clamped below at zero — the least upper bound of 0 and the
similarities to the topic vectors (so an all-negative topic set yields 0,
not the negative maximum). -/
theorem C3_relevance_default_and_clamped_max (st : HotScoreCalculator)
    (item : NewsItem) :
    (embPresent item.embedding = false ∨ st.topic_embeddings = [] →
      st.calculate_relevance item = .ok 0.5) ∧
    (embPresent item.embedding = true → st.topic_embeddings ≠ [] →
      (∀ t ∈ st.topic_embeddings, t.length = (item.embedding.getD []).length) →
      ∃ r, st.calculate_relevance item = .ok r ∧ 0 ≤ r ∧
        (∀ t ∈ st.topic_embeddings,
          cosSimVal (item.embedding.getD []) t ≤ r) ∧
        (r = 0 ∨ ∃ t ∈ st.topic_embeddings,
          r = cosSimVal (item.embedding.getD []) t)) := by
  constructor
  · rintro (h | h) <;>
      · unfold HotScoreCalculator.calculate_relevance
        rw [if_pos (by simp [h])]
  · intro hemb hne hlen
    unfold HotScoreCalculator.calculate_relevance
    rw [if_neg (by simp [hemb, hne])]
    rw [maxSimLoop_ok st.topic_embeddings hlen 0]
    refine ⟨_, rfl, ?_, ?_, ?_⟩
    · exact foldMax_init_le (fun t => cosSimVal (item.embedding.getD []) t)
        st.topic_embeddings 0
    · exact fun t ht => foldMax_mem_le
        (fun t => cosSimVal (item.embedding.getD []) t)
        st.topic_embeddings 0 t ht
    · exact foldMax_eq_init_or_mem
        (fun t => cosSimVal (item.embedding.getD []) t) st.topic_embeddings 0

/-- C3 counterexample: with the single topic vector [-1] and item embedding
[1] the code returns 0.0, although the maximum cosine similarity between
the embedding and any topic vector is -1.0. -/
theorem C3_counterexample_negative_similarity :
    (HotScoreCalculator.mk [[-1]] [] []).calculate_relevance
      { title := "t", summary := "s", url := "u", published_at := ⟨0, true⟩,
        source := "rss", embedding := some [1] } = .ok 0 ∧
    cosSimVal [(1 : ℝ)] [-1] = -1 ∧ (0 : ℝ) ≠ -1 := by
  refine ⟨?_, cosSimVal_one_negOne, by norm_num⟩
  unfold HotScoreCalculator.calculate_relevance
  rw [if_neg (by simp [embPresent])]
  have hc : cosine_similarity [(1 : ℝ)] [-1] = .ok (-1) := by
    rw [@cosine_similarity_of_length_eq [(1 : ℝ)] [-1] (by norm_num),
      cosSimVal_one_negOne]
  simp only [Option.getD_some, maxSimLoop, hc]
  norm_num

/-- C3 witness: a concrete run of the non-degenerate branch, with topic
set [[1]] and embedding [1]. -/
theorem C3_witness :
    ∃ r, (HotScoreCalculator.mk [[1]] [] []).calculate_relevance
      { title := "t", summary := "s", url := "u", published_at := ⟨0, true⟩,
        source := "rss", embedding := some [1] } = .ok r ∧ 0 ≤ r ∧
      (∀ t ∈ [[(1 : ℝ)]], cosSimVal ((some [(1 : ℝ)]).getD []) t ≤ r) ∧
      (r = 0 ∨ ∃ t ∈ [[(1 : ℝ)]],
        r = cosSimVal ((some [(1 : ℝ)]).getD []) t) :=
  (C3_relevance_default_and_clamped_max (HotScoreCalculator.mk [[1]] [] [])
    { title := "t", summary := "s", url := "u", published_at := ⟨0, true⟩,
      source := "rss", embedding := some [1] }).2 rfl (by simp) (by simp)

/-- C7 (amended): uniqueness is exactly 1.0 when the item has no embedding
or the published history is empty; otherwise it returns 1 minus the
maximum of 0 and the similarities to the history (so an all-negative
similarity set yields 1.0, not a value above 1); in particular, after
`add_published e` a later candidate whose embedding is identical to the
nonzero vector e has uniqueness exactly 0.0. -/
theorem C7_uniqueness_default_commit (st : HotScoreCalculator)
    (item : NewsItem) (e : List ℝ) :
    (embPresent item.embedding = false ∨ st.published_embeddings = [] →
      st.calculate_uniqueness item = .ok 1) ∧
    (embPresent item.embedding = true → st.published_embeddings ≠ [] →
      (∀ p ∈ st.published_embeddings,
        p.length = (item.embedding.getD []).length) →
      ∃ m, st.calculate_uniqueness item = .ok (1 - m) ∧ 0 ≤ m ∧
        (∀ p ∈ st.published_embeddings,
          cosSimVal (item.embedding.getD []) p ≤ m) ∧
        (m = 0 ∨ ∃ p ∈ st.published_embeddings,
          m = cosSimVal (item.embedding.getD []) p)) ∧
    (item.embedding = some e → (∃ x ∈ e, x ≠ 0) →
      (∀ p ∈ st.published_embeddings, p.length = e.length) →
      (st.add_published e).calculate_uniqueness item = .ok 0) := by
  refine ⟨?_, ?_, ?_⟩
  · rintro (h | h) <;>
      · unfold HotScoreCalculator.calculate_uniqueness
        rw [if_pos (by simp [h])]
  · intro hemb hne hlen
    unfold HotScoreCalculator.calculate_uniqueness
    rw [if_neg (by simp [hemb, hne])]
    rw [maxSimLoop_ok st.published_embeddings hlen 0]
    refine ⟨_, rfl, ?_, ?_, ?_⟩
    · exact foldMax_init_le (fun p => cosSimVal (item.embedding.getD []) p)
        st.published_embeddings 0
    · exact fun p hp => foldMax_mem_le
        (fun p => cosSimVal (item.embedding.getD []) p)
        st.published_embeddings 0 p hp
    · exact foldMax_eq_init_or_mem
        (fun p => cosSimVal (item.embedding.getD []) p)
        st.published_embeddings 0
  · intro hme hnz hlen
    have hene : e ≠ [] := by
      rcases hnz with ⟨x, hx, _⟩
      exact fun h => by cases h ▸ hx
    have hgetD : item.embedding.getD [] = e := by rw [hme]; rfl
    have hemb : embPresent item.embedding = true := by
      rw [hme]
      cases e with
      | nil => cases hene rfl
      | cons a t => rfl
    unfold HotScoreCalculator.calculate_uniqueness
    rw [if_neg (by simp [hemb, HotScoreCalculator.add_published])]
    have hlen' : ∀ p ∈ (st.add_published e).published_embeddings,
        p.length = (item.embedding.getD []).length := by
      intro p hp
      rw [hgetD]
      rcases List.mem_append.1 hp with hp | hp
      · exact hlen p hp
      · rcases List.mem_singleton.1 hp with rfl; rfl
    rw [maxSimLoop_ok (st.add_published e).published_embeddings hlen' 0]
    have hfold : (st.add_published e).published_embeddings.foldl
        (fun acc p => max acc (cosSimVal (item.embedding.getD []) p)) 0 = 1 := by
      show (st.published_embeddings ++ [e]).foldl _ 0 = 1
      rw [List.foldl_append]
      simp only [List.foldl_cons, List.foldl_nil]
      have hM : st.published_embeddings.foldl
          (fun acc p => max acc (cosSimVal (item.embedding.getD []) p)) 0 ≤ 1 :=
        foldMax_le _ st.published_embeddings 0 1 (by norm_num)
          (fun p _ => cosSimVal_le_one _ p)
      rw [hgetD, cosSimVal_self hnz]
      exact max_eq_right (by rw [hgetD] at hM; exact hM)
    rw [hfold]
    norm_num

/-- C7 counterexample: with published history [[-1]] and embedding [1] the
code returns uniqueness 1.0, although 1 minus the maximum cosine
similarity (-1.0) would be 2.0. -/
theorem C7_counterexample_negative_similarity :
    (HotScoreCalculator.mk [] [[-1]] []).calculate_uniqueness
      { title := "t", summary := "s", url := "u", published_at := ⟨0, true⟩,
        source := "rss", embedding := some [1] } = .ok 1 ∧
    1 - cosSimVal [(1 : ℝ)] [-1] = 2 ∧ (1 : ℝ) ≠ 2 := by
  refine ⟨?_, by rw [cosSimVal_one_negOne]; norm_num, by norm_num⟩
  unfold HotScoreCalculator.calculate_uniqueness
  rw [if_neg (by simp [embPresent])]
  have hc : cosine_similarity [(1 : ℝ)] [-1] = .ok (-1) := by
    rw [@cosine_similarity_of_length_eq [(1 : ℝ)] [-1] (by norm_num),
      cosSimVal_one_negOne]
  simp only [Option.getD_some, maxSimLoop, hc]
  norm_num

/-- C7 witness: committing the embedding [1] and then scoring a candidate
with the identical embedding yields uniqueness exactly 0. -/
theorem C7_witness :
    ((HotScoreCalculator.mk [] [] []).add_published [1]).calculate_uniqueness
      { title := "t", summary := "s", url := "u", published_at := ⟨0, true⟩,
        source := "rss", embedding := some [1] } = .ok 0 :=
  (C7_uniqueness_default_commit (HotScoreCalculator.mk [] [] [])
    { title := "t", summary := "s", url := "u", published_at := ⟨0, true⟩,
      source := "rss", embedding := some [1] } [1]).2.2 rfl
    ⟨1, by norm_num, one_ne_zero⟩ (by simp)

/-! ### Claim C2: trend frequency -/

theorem normalizePub_seconds (r : NewsItem) :
    r.normalizePub.published_at.seconds = r.published_at.seconds := by
  rcases r with ⟨t, s, u, ⟨sec, aw⟩, src, sh, rt, up, se, co, em⟩
  cases aw <;> simp [NewsItem.normalizePub, Datetime.replaceUTC]

theorem normalizePub_embedding (r : NewsItem) :
    r.normalizePub.embedding = r.embedding := rfl

/-- Specification-level count of similar recent items: those published at
most 6 hours before `now` (so items older than 6 hours never count), with
a truthy embedding whose cosine similarity to the candidate embedding
meets the threshold. -/
noncomputable def similarCount (emb : List ℝ) (now thr : ℝ) :
    List NewsItem → ℕ
  | [] => 0
  | r :: rs =>
    (if (now - r.published_at.seconds) / 3600 ≤ 6 ∧
        embPresent r.embedding = true ∧
        cosSimVal emb (r.embedding.getD []) ≥ thr then 1 else 0) +
      similarCount emb now thr rs

/-- On a window whose truthy embeddings all match the candidate dimension,
the trend loop returns the specification count and normalizes every
recent item's timezone in place. -/
theorem trendLoop_ok {emb : List ℝ} (now thr : ℝ) :
    ∀ l : List NewsItem,
      (∀ r ∈ l, embPresent r.embedding = true →
        (r.embedding.getD []).length = emb.length) →
      trendLoop emb now thr l =
        (.ok (similarCount emb now thr l), l.map NewsItem.normalizePub) := by
  intro l
  induction l with
  | nil => intro _; rfl
  | cons r rs ih =>
    intro h
    have hrs := ih (fun x hx => h x (List.mem_cons_of_mem r hx))
    by_cases h6 : (now - r.published_at.seconds) / 3600 > 6
    · have hcount : similarCount emb now thr (r :: rs) =
          similarCount emb now thr rs := by
        rw [similarCount, if_neg (by intro hc; exact absurd hc.1 (not_le.2 h6))]
        simp
      rw [similarCount] at hcount
      simp only [trendLoop, normalizePub_seconds, if_pos h6, hrs]
      rw [similarCount, List.map_cons]
      rw [show (if (now - r.published_at.seconds) / 3600 ≤ 6 ∧
          embPresent r.embedding = true ∧
          cosSimVal emb (r.embedding.getD []) ≥ thr then 1 else 0) = 0 from
        if_neg (fun hc => absurd hc.1 (not_le.2 h6))]
      simp
    · by_cases hpr : embPresent r.embedding = true
      · have hc : cosine_similarity emb (r.embedding.getD []) =
            .ok (cosSimVal emb (r.embedding.getD [])) :=
          cosine_similarity_of_length_eq
            ((h r (List.mem_cons_self r rs) hpr).symm)
        simp only [trendLoop, normalizePub_seconds, normalizePub_embedding,
          if_neg h6, hpr, if_pos, hc, hrs]
        rw [similarCount, List.map_cons]
        simp only [Except.map]
        by_cases hsim : cosSimVal emb (r.embedding.getD []) ≥ thr
        · rw [if_pos hsim,
            if_pos ⟨not_lt.1 h6, hpr, hsim⟩]
          simp [Nat.add_comm]
        · rw [if_neg hsim,
            if_neg (fun hco => absurd hco.2.2 hsim)]
          simp
      · have hprf : embPresent r.embedding = false :=
          Bool.eq_false_iff.2 (fun hb => hpr hb)
        simp only [trendLoop, normalizePub_seconds, normalizePub_embedding,
          if_neg h6, hprf, hrs]
        rw [similarCount, List.map_cons]
        rw [show (if (now - r.published_at.seconds) / 3600 ≤ 6 ∧
            embPresent r.embedding = true ∧
            cosSimVal emb (r.embedding.getD []) ≥ thr then 1 else 0) = 0 from
          if_neg (fun hco => by rw [hprf] at hco; cases hco.2.1)]
        simp

/-- C2: with no embedding or empty recent window, trend frequency falls
back to virality `min(1, engagement / per-source norm)` (default norm 100
for unknown sources, and the configured table values otherwise); otherwise
it counts the recent items published within the last 6 hours of now whose
truthy embedding has cosine similarity at least the threshold (default
0.7) and returns `min(1, count / 10)`, saturating at 1.0 for 10 or more
similar items. -/
theorem C2_trend_frequency_count (st : HotScoreCalculator) (now thr : ℝ)
    (item : NewsItem) :
    (embPresent item.embedding = false ∨ st.recent_news = [] →
      st.calculate_trend_frequency now item thr =
        (.ok (min 1 (((item.shares + item.retweets + item.upvotes : ℤ) : ℝ) /
          viralityNormOf item.source)), st.recent_news)) ∧
    (viralityNormOf "twitter" = 1000 ∧ viralityNormOf "reddit" = 500 ∧
      viralityNormOf "newsapi" = 100 ∧ viralityNormOf "rss" = 50 ∧
      (item.source ≠ "twitter" → item.source ≠ "reddit" →
        item.source ≠ "newsapi" → item.source ≠ "rss" →
        viralityNormOf item.source = 100)) ∧
    (embPresent item.embedding = true → st.recent_news ≠ [] →
      (∀ r ∈ st.recent_news, embPresent r.embedding = true →
        (r.embedding.getD []).length = (item.embedding.getD []).length) →
      st.calculate_trend_frequency now item thr =
        (.ok (min 1 ((similarCount (item.embedding.getD []) now thr
            st.recent_news : ℝ) / 10)),
         st.recent_news.map NewsItem.normalizePub)) ∧
    (10 ≤ similarCount (item.embedding.getD []) now thr st.recent_news →
      embPresent item.embedding = true → st.recent_news ≠ [] →
      (∀ r ∈ st.recent_news, embPresent r.embedding = true →
        (r.embedding.getD []).length = (item.embedding.getD []).length) →
      (st.calculate_trend_frequency now item thr).1 = .ok 1) := by
  have hmain : embPresent item.embedding = true → st.recent_news ≠ [] →
      (∀ r ∈ st.recent_news, embPresent r.embedding = true →
        (r.embedding.getD []).length = (item.embedding.getD []).length) →
      st.calculate_trend_frequency now item thr =
        (.ok (min 1 ((similarCount (item.embedding.getD []) now thr
            st.recent_news : ℝ) / 10)),
         st.recent_news.map NewsItem.normalizePub) := by
    intro hemb hne hlen
    unfold HotScoreCalculator.calculate_trend_frequency
    rw [if_neg (by simp [hemb, hne])]
    rw [trendLoop_ok now thr st.recent_news hlen]
  refine ⟨?_, ?_, hmain, ?_⟩
  · rintro (h | h) <;>
      · unfold HotScoreCalculator.calculate_trend_frequency
        rw [if_pos (by simp [h])]
        rfl
  · refine ⟨?_, ?_, ?_, ?_, ?_⟩
    · simp +decide [viralityNormOf, VIRALITY_NORMS, List.find?]
    · simp +decide [viralityNormOf, VIRALITY_NORMS, List.find?]
    · simp +decide [viralityNormOf, VIRALITY_NORMS, List.find?]
    · simp +decide [viralityNormOf, VIRALITY_NORMS, List.find?]
    · intro h1 h2 h3 h4
      have e1 : ("twitter" == item.source) = false :=
        beq_eq_false_iff_ne.mpr (Ne.symm h1)
      have e2 : ("reddit" == item.source) = false :=
        beq_eq_false_iff_ne.mpr (Ne.symm h2)
      have e3 : ("newsapi" == item.source) = false :=
        beq_eq_false_iff_ne.mpr (Ne.symm h3)
      have e4 : ("rss" == item.source) = false :=
        beq_eq_false_iff_ne.mpr (Ne.symm h4)
      simp [viralityNormOf, VIRALITY_NORMS, List.find?, e1, e2, e3, e4]
  · intro hcount hemb hne hlen
    rw [hmain hemb hne hlen]
    have : ((similarCount (item.embedding.getD []) now thr
        st.recent_news : ℕ) : ℝ) / 10 ≥ 1 := by
      rw [ge_iff_le, le_div_iff₀ (by norm_num : (0 : ℝ) < 10)]
      calc (1 : ℝ) * 10 = 10 := by norm_num
      _ ≤ (similarCount (item.embedding.getD []) now thr
          st.recent_news : ℝ) := by exact_mod_cast hcount
    simp [min_eq_left this]

/-- C2 witness: one recent item published at the evaluation instant with an
identical embedding gives a similar-count of 1 and a trend score of
`min(1, 1/10)`, leaving the already-aware recent item unchanged. -/
theorem C2_witness :
    (HotScoreCalculator.mk [] []
      [{ title := "r", summary := "s", url := "u", published_at := ⟨0, true⟩,
         source := "rss", embedding := some [1] }]).calculate_trend_frequency 0
      { title := "t", summary := "s", url := "u", published_at := ⟨0, true⟩,
        source := "twitter", embedding := some [1] } 0.7 =
      (.ok (min 1 ((1 : ℝ) / 10)),
       [{ title := "r", summary := "s", url := "u", published_at := ⟨0, true⟩,
          source := "rss", embedding := some [1] }]) := by
  have h := (C2_trend_frequency_count
    (HotScoreCalculator.mk [] []
      [{ title := "r", summary := "s", url := "u", published_at := ⟨0, true⟩,
         source := "rss", embedding := some [1] }]) 0 0.7
    { title := "t", summary := "s", url := "u", published_at := ⟨0, true⟩,
      source := "twitter", embedding := some [1] }).2.2.1 rfl (by simp)
    (by simp)
  rw [h]
  have hs : cosSimVal [(1 : ℝ)] [1] = 1 :=
    cosSimVal_self ⟨1, by norm_num, one_ne_zero⟩
  have hcount : similarCount [(1 : ℝ)] 0 0.7
      [{ title := "r", summary := "s", url := "u", published_at := ⟨0, true⟩,
         source := "rss", embedding := some [1] }] = 1 := by
    rw [similarCount, similarCount,
      if_pos ⟨by norm_num, rfl, by rw [Option.getD_some, hs]; norm_num⟩]
  simp only [Option.getD_some, hcount, List.map_cons, List.map_nil]
  norm_num [NewsItem.normalizePub]

/-! ### Claim C9: what scoring mutates -/

theorem normalizePub_cases (r : NewsItem) :
    r.normalizePub = r ∨
      r.normalizePub = { r with published_at := ⟨r.published_at.seconds, true⟩ } := by
  rcases r with ⟨t, s, u, ⟨sec, aw⟩, src, sh, rt, up, se, co, em⟩
  cases aw
  · right; rfl
  · left; rfl

theorem trendLoop_frame (emb : List ℝ) (now thr : ℝ) :
    ∀ l : List NewsItem,
      List.Forall₂ (fun r r' => r' = r ∨ r' = r.normalizePub) l
        (trendLoop emb now thr l).2 := by
  intro l
  induction l with
  | nil => exact List.Forall₂.nil
  | cons r rs ih =>
    by_cases h6 : (now - r.normalizePub.published_at.seconds) / 3600 > 6
    · rcases htl : trendLoop emb now thr rs with ⟨res, rs'⟩
      simp only [trendLoop, if_pos h6, htl]
      refine List.Forall₂.cons (Or.inr rfl) ?_
      rw [htl] at ih
      exact ih
    · by_cases hpr : embPresent r.normalizePub.embedding = true
      · rcases hcs : cosine_similarity emb (r.normalizePub.embedding.getD [])
          with e | sim
        · simp only [trendLoop, if_neg h6, hpr, if_pos, hcs]
          refine List.Forall₂.cons (Or.inr rfl) ?_
          exact List.forall₂_same.2 (fun x _ => Or.inl rfl)
        · rcases htl : trendLoop emb now thr rs with ⟨res, rs'⟩
          simp only [trendLoop, if_neg h6, hpr, if_pos, hcs, htl]
          refine List.Forall₂.cons (Or.inr rfl) ?_
          rw [htl] at ih
          exact ih
      · have hprf : embPresent r.normalizePub.embedding = false :=
          Bool.eq_false_iff.2 (fun hb => hpr hb)
        rcases htl : trendLoop emb now thr rs with ⟨res, rs'⟩
        simp only [trendLoop, if_neg h6, hprf, htl]
        refine List.Forall₂.cons (Or.inr rfl) ?_
        rw [htl] at ih
        exact ih

/-- Only `calculate_trend_frequency` touches the recent-news state inside
`calculate`. -/
theorem calculate_snd (st : HotScoreCalculator) (now : ℝ) (item : NewsItem) :
    (st.calculate now item).2 = (st.calculate_trend_frequency now item).2 := by
  rcases h : st.calculate_trend_frequency now item with ⟨res, rs⟩
  unfold HotScoreCalculator.calculate
  rw [h]
  cases res with
  | error e => rfl
  | ok trend =>
    cases hrel : st.calculate_relevance item with
    | error e => rfl
    | ok rel =>
      cases hu : st.calculate_uniqueness item with
      | error e => rfl
      | ok u => rfl

/-- C9 (amended): scoring does not mutate the candidate item, but it does
mutate the recent window in exactly one bounded way: each recent item is
either left unchanged or has UTC attached to its naive `published_at`
(same wall-clock seconds, awareness flag set to true); no other field of
any recent item changes, and no item is added, dropped or reordered by
scoring. -/
theorem C9_scoring_mutates_only_timezone (st : HotScoreCalculator)
    (now : ℝ) (item : NewsItem) :
    List.Forall₂ (fun r r' => r' = r ∨
        r' = { r with published_at := ⟨r.published_at.seconds, true⟩ })
      st.recent_news (st.calculate now item).2 := by
  have hrel : ∀ (l res : List NewsItem), List.Forall₂
      (fun r r' => r' = r ∨ r' = r.normalizePub) l res →
      List.Forall₂ (fun r r' => r' = r ∨
        r' = { r with published_at := ⟨r.published_at.seconds, true⟩ }) l res := by
    intro l res hf
    refine hf.imp ?_
    intro r r' h
    rcases h with rfl | rfl
    · exact Or.inl rfl
    · rcases normalizePub_cases r with h | h <;> rw [h]
      · exact Or.inl rfl
      · exact Or.inr rfl
  rw [calculate_snd]
  unfold HotScoreCalculator.calculate_trend_frequency
  by_cases hg : (!embPresent item.embedding || st.recent_news.isEmpty) = true
  · rw [if_pos hg]
    exact List.forall₂_same.2 (fun x _ => Or.inl rfl)
  · rw [if_neg hg]
    rcases htl : trendLoop (item.embedding.getD []) now 0.7 st.recent_news
      with ⟨res, rs⟩
    have hframe := trendLoop_frame (item.embedding.getD []) now 0.7
      st.recent_news
    rw [htl] at hframe
    cases res with
    | error e => exact hrel _ _ hframe
    | ok c => exact hrel _ _ hframe

/-- Concrete recent-window item with a naive timestamp far in the past. -/
noncomputable def recentNaive : NewsItem :=
  { title := "r", summary := "s", url := "u",
    published_at := ⟨-100000, false⟩, source := "rss", embedding := none }

/-- The same item after the loop of `calculate_trend_frequency` attaches
UTC in place. -/
noncomputable def recentAware : NewsItem :=
  { title := "r", summary := "s", url := "u",
    published_at := ⟨-100000, true⟩, source := "rss", embedding := none }

/-- Concrete candidate item carrying an embedding. -/
noncomputable def candidateEmb : NewsItem :=
  { title := "t", summary := "s", url := "u", published_at := ⟨0, true⟩,
    source := "rss", embedding := some [1] }

/-- C9 counterexample: scoring a candidate with an embedding against a
recent window holding one naive-timestamped item mutates that recent item
in place (UTC gets attached), so after `calculate` the recent window
differs from the caller-supplied one. -/
theorem C9_counterexample_recent_item_mutated :
    ((HotScoreCalculator.mk [] [] [recentNaive]).calculate 0 candidateEmb).2 ≠
      [recentNaive] := by
  rw [calculate_snd]
  unfold HotScoreCalculator.calculate_trend_frequency
  rw [if_neg (by simp [embPresent, candidateEmb])]
  have hl : trendLoop (candidateEmb.embedding.getD []) 0 0.7 [recentNaive] =
      (.ok 0, [recentAware]) := by
    simp only [trendLoop]
    rw [if_pos (by norm_num [recentNaive, NewsItem.normalizePub,
      Datetime.replaceUTC])]
    rfl
  simp only [hl]
  simp [recentNaive, recentAware]

/-! ### Claim C1: ranking.  Part A: batch scoring -/

theorem normalizePub_idem (r : NewsItem) :
    r.normalizePub.normalizePub = r.normalizePub := by
  rcases r with ⟨t, s, u, ⟨sec, aw⟩, src, sh, rt, up, se, co, em⟩
  cases aw <;> rfl

theorem trendLoop_map_normalize (emb : List ℝ) (now thr : ℝ) :
    ∀ l : List NewsItem,
      trendLoop emb now thr (l.map NewsItem.normalizePub) =
        ((trendLoop emb now thr l).1,
         ((trendLoop emb now thr l).2).map NewsItem.normalizePub) := by
  intro l
  induction l with
  | nil => rfl
  | cons r rs ih =>
    rcases htl : trendLoop emb now thr rs with ⟨res, rs2⟩
    rw [htl] at ih
    dsimp only at ih
    by_cases h6 : (now - r.normalizePub.published_at.seconds) / 3600 > 6
    · simp [trendLoop, normalizePub_idem, if_pos h6, htl, ih]
    · by_cases hpr : embPresent r.normalizePub.embedding = true
      · rcases hcs : cosine_similarity emb (r.normalizePub.embedding.getD [])
          with e | sim
        · simp [trendLoop, normalizePub_idem, if_neg h6, hpr, hcs, htl, ih]
        · simp [trendLoop, normalizePub_idem, if_neg h6, hpr, hcs, htl, ih]
      · have hprf : embPresent r.normalizePub.embedding = false :=
          Bool.eq_false_iff.2 (fun hb => hpr hb)
        simp [trendLoop, normalizePub_idem, if_neg h6, hprf, htl, ih]

theorem trendLoop_snd_of_ok (emb : List ℝ) (now thr : ℝ) :
    ∀ l : List NewsItem, (∃ c, (trendLoop emb now thr l).1 = .ok c) →
      (trendLoop emb now thr l).2 = l.map NewsItem.normalizePub := by
  intro l
  induction l with
  | nil => intro _; rfl
  | cons r rs ih =>
    intro hok
    rcases htl : trendLoop emb now thr rs with ⟨res, rs2⟩
    rw [htl] at ih
    dsimp only at ih
    by_cases h6 : (now - r.normalizePub.published_at.seconds) / 3600 > 6
    · simp only [trendLoop, if_pos h6, htl] at hok ⊢
      rw [List.map_cons, ih hok]
    · by_cases hpr : embPresent r.normalizePub.embedding = true
      · rcases hcs : cosine_similarity emb (r.normalizePub.embedding.getD [])
          with e | sim
        · simp only [trendLoop, if_neg h6, hpr, if_pos, hcs] at hok
          rcases hok with ⟨c, hc⟩
          cases hc
        · simp only [trendLoop, if_neg h6, hpr, if_pos, hcs, htl] at hok ⊢
          rcases hok with ⟨c, hc⟩
          cases res with
          | error e => cases hc
          | ok c0 =>
            rw [List.map_cons, ih ⟨c0, rfl⟩]
      · have hprf : embPresent r.normalizePub.embedding = false :=
          Bool.eq_false_iff.2 (fun hb => hpr hb)
        simp only [trendLoop, if_neg h6, hprf, htl] at hok ⊢
        simp only [Bool.false_eq_true, if_false] at hok ⊢
        rw [List.map_cons, ih hok]

/-- The engine state with every recent item timezone-normalized (the state
`calculate_trend_frequency` leaves behind on a successful full pass). -/
noncomputable def HotScoreCalculator.normRecent (st : HotScoreCalculator) :
    HotScoreCalculator :=
  { st with recent_news := st.recent_news.map NewsItem.normalizePub }

theorem trend_fst_normalized (st : HotScoreCalculator) (now : ℝ)
    (item : NewsItem) (thr : ℝ) :
    (st.normRecent.calculate_trend_frequency now item thr).1 =
      (st.calculate_trend_frequency now item thr).1 := by
  unfold HotScoreCalculator.normRecent
  unfold HotScoreCalculator.calculate_trend_frequency
  by_cases hg : (!embPresent item.embedding || st.recent_news.isEmpty) = true
  · have hg' : (!embPresent item.embedding ||
        (st.recent_news.map NewsItem.normalizePub).isEmpty) = true := by
      simpa using hg
    rw [if_pos hg, if_pos hg']
  · have hg' : ¬(!embPresent item.embedding ||
        (st.recent_news.map NewsItem.normalizePub).isEmpty) = true := by
      simpa using hg
    rw [if_neg hg, if_neg hg']
    rcases htl : trendLoop (item.embedding.getD []) now thr st.recent_news
      with ⟨res, rs2⟩
    have hmap := trendLoop_map_normalize (item.embedding.getD []) now thr
      st.recent_news
    rw [htl] at hmap
    dsimp only at hmap
    rw [hmap]
    cases res with
    | error e => rfl
    | ok c => rfl

theorem calculate_fst_normalized (st : HotScoreCalculator) (now : ℝ)
    (item : NewsItem) :
    (st.normRecent.calculate now item).1 = (st.calculate now item).1 := by
  rcases h1 : st.calculate_trend_frequency now item with ⟨res, rs⟩
  rcases h2 : st.normRecent.calculate_trend_frequency now item
    with ⟨res2, rs2⟩
  have hf := trend_fst_normalized st now item 0.7
  rw [h1, h2] at hf
  dsimp only at hf
  subst hf
  unfold HotScoreCalculator.calculate
  rw [h1, h2]
  have hrel : st.normRecent.calculate_relevance item =
      st.calculate_relevance item := rfl
  have huni : st.normRecent.calculate_uniqueness item =
      st.calculate_uniqueness item := rfl
  rw [hrel, huni]
  cases res2 with
  | error e => rfl
  | ok t =>
    cases st.calculate_relevance item with
    | error e => rfl
    | ok rel =>
      cases st.calculate_uniqueness item with
      | error e => rfl
      | ok u => rfl

theorem trend_ok_snd (st : HotScoreCalculator) (now : ℝ) (item : NewsItem)
    (thr : ℝ) (h : ∃ v, (st.calculate_trend_frequency now item thr).1 = .ok v) :
    (st.calculate_trend_frequency now item thr).2 = st.recent_news ∨
      (st.calculate_trend_frequency now item thr).2 =
        st.recent_news.map NewsItem.normalizePub := by
  unfold HotScoreCalculator.calculate_trend_frequency at h ⊢
  by_cases hg : (!embPresent item.embedding || st.recent_news.isEmpty) = true
  · rw [if_pos hg]
    exact Or.inl rfl
  · rw [if_neg hg] at h ⊢
    rcases htl : trendLoop (item.embedding.getD []) now thr st.recent_news
      with ⟨res, rs2⟩
    cases res with
    | error e =>
      rcases h with ⟨v, hv⟩
      rw [htl] at hv
      exact absurd hv (by exact fun hv => Except.noConfusion hv)
    | ok c =>
      right
      have hsnd := trendLoop_snd_of_ok (item.embedding.getD []) now thr
        st.recent_news ⟨c, by rw [htl]⟩
      rw [htl] at hsnd
      exact hsnd

theorem calculate_ok_snd (st : HotScoreCalculator) (now : ℝ)
    (item : NewsItem) (h : ∃ v, (st.calculate now item).1 = .ok v) :
    (st.calculate now item).2 = st.recent_news ∨
      (st.calculate now item).2 =
        st.recent_news.map NewsItem.normalizePub := by
  rw [calculate_snd]
  apply trend_ok_snd
  rcases h with ⟨v, hv⟩
  unfold HotScoreCalculator.calculate at hv
  rcases htf : st.calculate_trend_frequency now item with ⟨res, rs⟩
  rw [htf] at hv
  cases res with
  | error e => cases hv
  | ok t => exact ⟨t, rfl⟩

theorem scoreBatch_fst (now : ℝ) (f : NewsItem → ℝ) :
    ∀ (l : List NewsItem) (st : HotScoreCalculator),
      (∀ it ∈ l, (st.calculate now it).1 = .ok (f it)) →
      (scoreBatch st now l).1 = .ok (l.map (fun it => (it, f it))) := by
  intro l
  induction l with
  | nil => intro st _; rfl
  | cons it rest ih =>
    intro st h
    rcases hc : st.calculate now it with ⟨res, rs⟩
    have hres : res = .ok (f it) := by
      have hh := h it (List.mem_cons_self it rest)
      rw [hc] at hh
      exact hh
    subst hres
    have hrs : rs = st.recent_news ∨
        rs = st.recent_news.map NewsItem.normalizePub := by
      have hsnd := calculate_ok_snd st now it ⟨f it, by rw [hc]⟩
      rw [hc] at hsnd
      exact hsnd
    have hrest : ∀ it' ∈ rest,
        (({ st with recent_news := rs } : HotScoreCalculator).calculate
          now it').1 = .ok (f it') := by
      intro it' hit'
      rcases hrs with rfl | hnorm
      · have hst : ({ st with recent_news := st.recent_news } :
            HotScoreCalculator) = st := rfl
        rw [hst]
        exact h it' (List.mem_cons_of_mem it hit')
      · subst hnorm
        have hst : ({ st with recent_news :=
            st.recent_news.map NewsItem.normalizePub } :
            HotScoreCalculator) = st.normRecent := rfl
        rw [hst, calculate_fst_normalized]
        exact h it' (List.mem_cons_of_mem it hit')
    have hb := ih { st with recent_news := rs } hrest
    unfold scoreBatch
    rw [hc]
    rcases hsb : scoreBatch { st with recent_news := rs } now rest
      with ⟨bres, brs⟩
    rw [hsb] at hb
    dsimp only at hb
    dsimp only
    rw [hsb]
    dsimp only
    rw [hb]
    rfl

theorem rank_news_fst (st : HotScoreCalculator) (now : ℝ)
    (items : List NewsItem) (top_n : ℕ) (f : NewsItem → ℝ)
    (h : ∀ it ∈ items, (st.calculate now it).1 = .ok (f it)) :
    (st.rank_news now items top_n).1 =
      .ok ((((items.map (fun it => (it, f it))).insertionSort
        (fun a b => b.2 ≤ a.2)).take top_n).map Prod.fst) := by
  unfold HotScoreCalculator.rank_news
  rcases hsb : scoreBatch st now items with ⟨bres, brs⟩
  have hb := scoreBatch_fst now f items st h
  rw [hsb] at hb
  dsimp only at hb
  subst hb
  rfl

/-! ### Claim C1.  Part B: stable descending sort characterization -/

/-- Specification order for a stable descending sort of enumerated items:
strictly larger score first, ties broken by the original index. -/
def rLex {α : Type _} (g : α → ℝ) (a b : ℕ × α) : Prop :=
  g b.2 < g a.2 ∨ (g a.2 = g b.2 ∧ a.1 ≤ b.1)

theorem le_fst_of_mem_enumFrom {α : Type _} :
    ∀ (l : List α) (m : ℕ) (p : ℕ × α), p ∈ l.enumFrom m → m ≤ p.1 := by
  intro l
  induction l with
  | nil => intro m p hp; cases hp
  | cons a l ih =>
    intro m p hp
    rcases List.mem_cons.1 hp with rfl | hmem
    · exact le_refl m
    · exact le_trans (Nat.le_succ m) (ih (m + 1) p hmem)

theorem snd_mem_of_mem_enumFrom {α : Type _} :
    ∀ (l : List α) (m : ℕ) (p : ℕ × α), p ∈ l.enumFrom m → p.2 ∈ l := by
  intro l
  induction l with
  | nil => intro m p hp; cases hp
  | cons a l ih =>
    intro m p hp
    rcases List.mem_cons.1 hp with rfl | hmem
    · exact List.mem_cons_self a l
    · exact List.mem_cons_of_mem a (ih (m + 1) p hmem)

theorem enumFrom_map_pair {α β : Type _} (g : α → β) :
    ∀ (l : List α) (n : ℕ),
      (l.map g).enumFrom n = (l.enumFrom n).map (fun q => (q.1, g q.2)) := by
  intro l
  induction l with
  | nil => intro n; rfl
  | cons a l ih =>
    intro n
    simp only [List.map_cons, List.enumFrom_cons, ih]

theorem rLex_iff_of_lt {α : Type _} (g : α → ℝ) {n j : ℕ} (x y : α)
    (hj : n < j) : rLex g (n, x) (j, y) ↔ g y ≤ g x := by
  constructor
  · rintro (h | ⟨h, _⟩)
    · exact le_of_lt h
    · exact le_of_eq h.symm
  · intro h
    rcases lt_or_eq_of_le h with h | h
    · exact Or.inl h
    · exact Or.inr ⟨h.symm, le_of_lt hj⟩

theorem map_snd_orderedInsert {α : Type _} (g : α → ℝ) (n : ℕ) (x : α) :
    ∀ M : List (ℕ × α), (∀ p ∈ M, n < p.1) →
      (M.orderedInsert (rLex g) (n, x)).map Prod.snd =
        (M.map Prod.snd).orderedInsert (fun a b => g b ≤ g a) x := by
  intro M
  induction M with
  | nil => intro _; rfl
  | cons q M ih =>
    intro h
    rcases q with ⟨j, y⟩
    have hj : n < j := h (j, y) (List.mem_cons_self _ M)
    by_cases hr : g y ≤ g x
    · simp only [List.orderedInsert, List.map_cons]
      rw [if_pos ((rLex_iff_of_lt g x y hj).2 hr), if_pos hr]
      rfl
    · simp only [List.orderedInsert, List.map_cons]
      rw [if_neg (fun hl => hr ((rLex_iff_of_lt g x y hj).1 hl)),
        if_neg hr, List.map_cons,
        ih (fun p hp => h p (List.mem_cons_of_mem _ hp))]

theorem map_snd_insertionSort_enumFrom {α : Type _} (g : α → ℝ) :
    ∀ (L : List α) (n : ℕ),
      ((L.enumFrom n).insertionSort (rLex g)).map Prod.snd =
        L.insertionSort (fun a b => g b ≤ g a) := by
  intro L
  induction L with
  | nil => intro n; rfl
  | cons x xs ih =>
    intro n
    rw [List.enumFrom_cons, List.insertionSort, List.insertionSort]
    rw [map_snd_orderedInsert g n x _ ?_, ih (n + 1)]
    intro p hp
    have hmem : p ∈ xs.enumFrom (n + 1) := (List.mem_insertionSort _).1 hp
    exact lt_of_lt_of_le (Nat.lt_succ_self n)
      (le_fst_of_mem_enumFrom xs (n + 1) p hmem)

theorem rLex_total {α : Type _} (g : α → ℝ) (a b : ℕ × α) :
    rLex g a b ∨ rLex g b a := by
  rcases lt_trichotomy (g a.2) (g b.2) with h | h | h
  · exact Or.inr (Or.inl h)
  · rcases Nat.le_total a.1 b.1 with hn | hn
    · exact Or.inl (Or.inr ⟨h, hn⟩)
    · exact Or.inr (Or.inr ⟨h.symm, hn⟩)
  · exact Or.inl (Or.inl h)

theorem rLex_trans {α : Type _} (g : α → ℝ) (a b c : ℕ × α)
    (h1 : rLex g a b) (h2 : rLex g b c) : rLex g a c := by
  rcases h1 with h1 | ⟨h1, h1n⟩ <;> rcases h2 with h2 | ⟨h2, h2n⟩
  · exact Or.inl (lt_trans h2 h1)
  · exact Or.inl (by rw [← h2]; exact h1)
  · exact Or.inl (by rw [h1]; exact h2)
  · exact Or.inr ⟨h1.trans h2, le_trans h1n h2n⟩

/-- C1: for every batch whose scoring succeeds, `rank_news` computes the
fused score of every item, orders the batch as the unique stable
descending sort (scores descending, ties broken by input order, expressed
by the enumerated permutation p), and returns the first `top_n` items;
`top_n = 0` yields the empty sequence and `top_n ≥` batch size yields the
whole batch in score order. -/
theorem C1_rank_news_stable_top (st : HotScoreCalculator) (now : ℝ)
    (items : List NewsItem) (top_n : ℕ) (f : NewsItem → ℝ)
    (h : ∀ it ∈ items, (st.calculate now it).1 = .ok (f it)) :
    ∃ p : List (ℕ × NewsItem),
      p.Perm items.enum ∧
      p.Pairwise (fun a b => f b.2 ≤ f a.2 ∧ (f a.2 = f b.2 → a.1 < b.1)) ∧
      (st.rank_news now items top_n).1 = .ok ((p.map Prod.snd).take top_n) ∧
      (p.map Prod.snd).length = items.length ∧
      (top_n = 0 → (st.rank_news now items top_n).1 = .ok []) ∧
      (items.length ≤ top_n →
        (st.rank_news now items top_n).1 = .ok (p.map Prod.snd)) := by
  set scored := items.map (fun it => (it, f it)) with hscored
  set S := (scored.enumFrom 0).insertionSort
    (rLex (Prod.snd : NewsItem × ℝ → ℝ)) with hSdef
  set p := S.map (fun q => (q.1, q.2.1)) with hpdef
  have hbridge : S.map Prod.snd =
      scored.insertionSort (fun a b => b.2 ≤ a.2) :=
    map_snd_insertionSort_enumFrom Prod.snd scored 0
  have hrank := rank_news_fst st now items top_n f h
  have hout : ((scored.insertionSort (fun a b => b.2 ≤ a.2)).take
      top_n).map Prod.fst = (p.map Prod.snd).take top_n := by
    rw [← hbridge, List.map_take, hpdef]
    simp only [List.map_map]
    rfl
  have hrank2 : (st.rank_news now items top_n).1 =
      .ok ((p.map Prod.snd).take top_n) := by
    rw [hrank, hout]
  have hperm : p.Perm items.enum := by
    have h1 : S.Perm (scored.enumFrom 0) := List.perm_insertionSort _ _
    have h2 := h1.map (fun q : ℕ × (NewsItem × ℝ) => (q.1, q.2.1))
    have h3 : (scored.enumFrom 0).map
        (fun q : ℕ × (NewsItem × ℝ) => (q.1, q.2.1)) = items.enum := by
      rw [hscored, enumFrom_map_pair, List.map_map]
      have hcomp : ((fun q : ℕ × (NewsItem × ℝ) => (q.1, q.2.1)) ∘
          (fun q : ℕ × NewsItem => (q.1, (q.2, f q.2)))) = id := by
        funext q
        rcases q with ⟨i, it⟩
        rfl
      rw [hcomp, List.map_id]
      rfl
    rw [h3] at h2
    exact h2
  have hval : ∀ q ∈ S, q.2.2 = f q.2.1 := by
    intro q hq
    have hqE : q ∈ scored.enumFrom 0 := (List.mem_insertionSort _).1 hq
    have hs : q.2 ∈ scored := snd_mem_of_mem_enumFrom _ 0 q hqE
    rw [hscored] at hs
    rcases List.mem_map.1 hs with ⟨it, _, heq⟩
    rw [← heq]
  have hsorted : S.Pairwise (rLex (Prod.snd : NewsItem × ℝ → ℝ)) := by
    haveI : IsTotal (ℕ × (NewsItem × ℝ)) (rLex Prod.snd) := ⟨rLex_total _⟩
    haveI : IsTrans (ℕ × (NewsItem × ℝ)) (rLex Prod.snd) := ⟨rLex_trans _⟩
    exact List.sorted_insertionSort _ _
  have hnedup : S.Pairwise (fun a b => a.1 ≠ b.1) := by
    have hnd := List.nodup_enum_map_fst scored
    have hE : (scored.enumFrom 0).Pairwise (fun a b => a.1 ≠ b.1) :=
      List.pairwise_map.1 hnd
    exact (List.perm_insertionSort _ _).symm.pairwise hE
      (fun hab => Ne.symm hab)
  have hstrong : S.Pairwise (fun a b =>
      f b.2.1 ≤ f a.2.1 ∧ (f a.2.1 = f b.2.1 → a.1 < b.1)) := by
    refine List.Pairwise.imp_of_mem ?_ (hsorted.and hnedup)
    intro a b ha hb hab
    rcases hab with ⟨hlex, hne⟩
    have ha2 := hval a ha
    have hb2 := hval b hb
    constructor
    · rcases hlex with hlt | ⟨heq, _⟩
      · rw [← ha2, ← hb2]
        exact le_of_lt hlt
      · rw [← ha2, ← hb2]
        exact le_of_eq heq.symm
    · intro heq
      rcases hlex with hlt | ⟨_, hle⟩
      · exfalso
        rw [← ha2, ← hb2] at heq
        rw [heq] at hlt
        exact lt_irrefl _ hlt
      · exact lt_of_le_of_ne hle hne
  have hpair : p.Pairwise (fun a b =>
      f b.2 ≤ f a.2 ∧ (f a.2 = f b.2 → a.1 < b.1)) := by
    rw [hpdef, List.pairwise_map]
    exact hstrong
  have hlen : (p.map Prod.snd).length = items.length := by
    rw [List.length_map, hpdef, List.length_map,
      (List.perm_insertionSort _ _).length_eq, List.enumFrom_length,
      hscored, List.length_map]
  refine ⟨p, hperm, hpair, hrank2, hlen, ?_, ?_⟩
  · intro h0
    subst h0
    rw [hrank2]
    rfl
  · intro hle
    rw [hrank2, List.take_of_length_le (by rw [hlen]; exact hle)]

theorem getWeight_values :
    getWeight "freshness" = 0.25 ∧ getWeight "trend_frequency" = 0.25 ∧
    getWeight "relevance" = 0.30 ∧ getWeight "sentiment" = 0.10 ∧
    getWeight "uniqueness" = 0.10 := by
  refine ⟨?_, ?_, ?_, ?_, ?_⟩ <;>
    simp +decide [getWeight, WEIGHTS, List.find?]

theorem calc_candidateEmb :
    ((HotScoreCalculator.mk [] [] []).calculate 0 candidateEmb).1 =
      .ok (0.5 : ℝ) := by
  have hrel : (HotScoreCalculator.mk [] [] []).calculate_relevance
      candidateEmb = .ok 0.5 := by
    unfold HotScoreCalculator.calculate_relevance
    rw [if_pos (by simp)]
  have huni : (HotScoreCalculator.mk [] [] []).calculate_uniqueness
      candidateEmb = .ok 1 := by
    unfold HotScoreCalculator.calculate_uniqueness
    rw [if_pos (by simp)]
  have hfresh : HotScoreCalculator.calculate_freshness 0
      candidateEmb.published_at = 1 := by
    unfold HotScoreCalculator.calculate_freshness candidateEmb
    norm_num [Real.exp_zero]
  have hvir : HotScoreCalculator.calculate_virality candidateEmb = 0 := by
    unfold HotScoreCalculator.calculate_virality candidateEmb
    have : viralityNormOf "rss" = 50 := by
      simp +decide [viralityNormOf, VIRALITY_NORMS, List.find?]
    rw [this]
    norm_num
  have hsent : HotScoreCalculator.calculate_sentiment_score
      candidateEmb = 0 := by
    unfold HotScoreCalculator.calculate_sentiment_score candidateEmb
    norm_num
  unfold HotScoreCalculator.calculate
  unfold HotScoreCalculator.calculate_trend_frequency
  rw [if_pos (by simp [embPresent, candidateEmb])]
  dsimp only
  rw [hrel, huni]
  dsimp only
  rw [hfresh, hvir, hsent, getWeight_values.1, getWeight_values.2.1,
    getWeight_values.2.2.1, getWeight_values.2.2.2.1,
    getWeight_values.2.2.2.2]
  norm_num

/-- C1 witness: ranking the one-item batch `[candidateEmb]` (whose fused
score evaluates to 0.5) with `top_n = 1` returns it, with the enumerated
permutation exhibiting the sort. -/
theorem C1_witness :
    ∃ p : List (ℕ × NewsItem),
      p.Perm [candidateEmb].enum ∧
      p.Pairwise (fun a b => (0.5 : ℝ) ≤ 0.5 ∧ ((0.5 : ℝ) = 0.5 → a.1 < b.1)) ∧
      ((HotScoreCalculator.mk [] [] []).rank_news 0 [candidateEmb] 1).1 =
        .ok ((p.map Prod.snd).take 1) ∧
      (p.map Prod.snd).length = 1 ∧
      ((1 : ℕ) = 0 →
        ((HotScoreCalculator.mk [] [] []).rank_news 0 [candidateEmb] 1).1 =
          .ok []) ∧
      ((1 : ℕ) ≤ 1 →
        ((HotScoreCalculator.mk [] [] []).rank_news 0 [candidateEmb] 1).1 =
          .ok (p.map Prod.snd)) :=
  C1_rank_news_stable_top (HotScoreCalculator.mk [] [] []) 0 [candidateEmb]
    1 (fun _ => (0.5 : ℝ))
    (by
      intro it hit
      rw [List.mem_singleton] at hit
      subst hit
      exact calc_candidateEmb)
